import Mathlib

/-!
# Verification of the billion-row-table core

A shallow embedding, in Lean 4, of the core of the `billion-row-table`
repository: the sparse row index builder (`backend/src/indexer.ts`), the
index codec (`saveIndex` / `loadIndex`), the cache-freshness heuristic
(`getOrBuildIndex`), the row slicer (`slicer.ts`: `getSlice` / `parseRows`),
the viewport translator (`computeSliceParams`), and the spreadsheet
column-letter function (`columnIndexToLetters`).

Modelling conventions:
* Files and chunks are `List Nat` of byte values; the line terminator is
  byte `10` and the field separator is byte `59`.
* JavaScript `number` arithmetic on row/column request parameters is
  modelled with `Int` (`Math.floor` of a quotient of integers with a
  positive divisor is `Int.fdiv`); values that the source keeps in `Nat`
  ranges are modelled with `Nat`.
* Cell contents are kept as their UTF-8 byte sequences (`List Nat`).  The
  source decodes them with `TextDecoder` before returning; decoding is a
  bijection on valid UTF-8, and the single-byte separators `10` and `59`
  never occur inside a multi-byte UTF-8 sequence, so splitting on bytes is
  faithful to the source's splitting of decoded strings.
* The 64-bit on-disk integers of the index codec are modelled as `Nat`
  with explicit `% 2 ^ 64` where JavaScript's `BigUint64` conversions wrap.
-/

/-- The line-terminator byte (`NEWLINE = 0x0a` in the source). -/
def NEWLINE : Nat := 10

/-- The field-separator byte (`SEMICOLON = 0x3b` in the source). -/
def SEMICOLON : Nat := 59

/-- `TOTAL_COLS` from `types.ts`: the configured number of columns. -/
def TOTAL_COLS : Int := 2

/-- `COL_LETTERS` from `types.ts`. -/
def COL_LETTERS : List String := ["A", "B"]

/-- `READ_BUFFER_SIZE = 32 * 1024` from `slicer.ts`. -/
def READ_BUFFER_SIZE : Nat := 32 * 1024

/-- The `FileIndex` record of `types.ts`: total row count, anchor byte
offsets (a `BigUint64Array` in the source, a list of naturals here) and the
granularity. -/
structure FileIndex where
  totalRows : Nat
  offsets : List Nat
  granularity : Nat
  deriving Repr, DecidableEq

/-- The scanning loop of `buildIndex` (`indexer.ts`): walk the file bytes
at absolute position `pos`, counting `NEWLINE` bytes into `totalRows` and,
whenever `rowsSinceLastIndex` reaches the granularity, pushing the offset
of the byte after the newline.  The accumulator `offsets` is kept reversed
and reversed once at the end.  The source reads the file in chunks while
tracking a running `currentOffset`; that is equivalent to this single pass
over the concatenated bytes. -/
def buildIndexGo (G : Nat) : List Nat → Nat → Nat → Nat → List Nat → Nat × List Nat
  | [], _, totalRows, _, offsets => (totalRows, offsets.reverse)
  | b :: rest, pos, totalRows, sinceLast, offsets =>
    if b = NEWLINE then
      if G ≤ sinceLast + 1 then
        buildIndexGo G rest (pos + 1) (totalRows + 1) 0 ((pos + 1) :: offsets)
      else
        buildIndexGo G rest (pos + 1) (totalRows + 1) (sinceLast + 1) offsets
    else
      buildIndexGo G rest (pos + 1) totalRows sinceLast offsets

/-- `buildIndex` from `indexer.ts`: scan the whole file, with `offsets`
pre-seeded to `[0]`. -/
def buildIndex (bytes : List Nat) (G : Nat) : FileIndex :=
  let res := buildIndexGo G bytes 0 0 0 [0]
  { totalRows := res.1, offsets := res.2, granularity := G }

/-- The seed data file of the spec's §8, as bytes:
five semicolon-delimited records, each terminated by `NEWLINE`
(`Hamburg;12.0`, `Bulawayo;8.9`, `Palembang;38.8`, `St. John.s;15.2` with
byte 39 for its apostrophe, `Cracow;12.6`). -/
def seedRecords : List (List Nat) :=
  [ [72, 97, 109, 98, 117, 114, 103, 59, 49, 50, 46, 48],
    [66, 117, 108, 97, 119, 97, 121, 111, 59, 56, 46, 57],
    [80, 97, 108, 101, 109, 98, 97, 110, 103, 59, 51, 56, 46, 56],
    [83, 116, 46, 32, 74, 111, 104, 110, 39, 115, 59, 49, 53, 46, 50],
    [67, 114, 97, 99, 111, 119, 59, 49, 50, 46, 54] ]

/-- A file made of `NEWLINE`-terminated records: the concatenation
`r₀ ++ [10] ++ r₁ ++ [10] ++ ⋯`. -/
def flatJoin (recs : List (List Nat)) : List Nat :=
  (recs.map (fun r => r ++ [NEWLINE])).flatten

/-- The seed data file `F` as a flat byte list (69 bytes). -/
def seedFile : List Nat := flatJoin seedRecords

/-- The `SliceResponse` record of `types.ts` (field `type` is the constant
string `"slice_response"` and is omitted; cells are kept as UTF-8 bytes). -/
structure SliceResponse where
  startRow : Int
  rowCount : Int
  startCol : Int
  colCount : Int
  colLetters : List String
  cellsByRow : List (List (List Nat))
  deriving Repr, DecidableEq

/-- JavaScript `Array.prototype.slice(s, e)`: negative bounds count from
the end, bounds are clamped to `[0, length]`, and the result is the
elements of `[s', e')`. -/
def jsSlice {α : Type} (l : List α) (s e : Int) : List α :=
  let len : Int := l.length
  let s' := if s < 0 then max (len + s) 0 else min s len
  let e' := if e < 0 then max (len + e) 0 else min e len
  (l.drop s'.toNat).take (e' - s').toNat

/-- The line-splitting step of `parseRows`: split a record on the first
`SEMICOLON` byte into exactly two cells (`[line, ""]` when the separator
is absent). -/
def splitCells (line : List Nat) : List (List Nat) :=
  let i := line.findIdx (fun b => b = SEMICOLON)
  if i = line.length then [line, []]
  else [line.take i, line.drop (i + 1)]

/-- The column-projection step of `parseRows`: `cells.slice(startCol,
startCol + colCount)`, padded with empty cells up to `colCount`. -/
def projectCols (cells : List (List Nat)) (startCol colCount : Int) : List (List Nat) :=
  let sliced := jsSlice cells startCol (startCol + colCount)
  sliced ++ List.replicate (colCount.toNat - sliced.length) []

/-- The skip loop of `parseRows`: advance byte-by-byte, counting `NEWLINE`
bytes, until `skipRows` newlines have been consumed or the data ends;
return the remaining bytes. -/
def skipLines : List Nat → Nat → List Nat
  | bs, 0 => bs
  | [], _ + 1 => []
  | b :: rest, n + 1 =>
    if b = NEWLINE then skipLines rest n else skipLines rest (n + 1)

/-- The parse loop of `parseRows`, one outer step per emitted row.  The
source loop skips an empty line (a `NEWLINE` at the cursor) without
emitting; a maximal run of leading `NEWLINE` bytes is exactly a run of
consecutive empty lines, so each step first drops that run, then takes the
line up to the next `NEWLINE` (or the end of data), emits its projected
cells, and continues after the newline.  At most `maxRows` rows are
emitted, and the loop stops when the data is exhausted. -/
def parseEmit : Nat → List Nat → Int → Int → List (List (List Nat))
  | 0, _, _, _ => []
  | m + 1, data, startCol, colCount =>
    let d := data.dropWhile (fun b => b = NEWLINE)
    if d.isEmpty then []
    else
      let line := d.takeWhile (fun b => b ≠ NEWLINE)
      projectCols (splitCells line) startCol colCount ::
        parseEmit m (d.drop (line.length + 1)) startCol colCount

/-- `Slicer.parseRows` from `slicer.ts`: skip `skipRows` newline-terminated
rows, then parse up to `maxRows` rows, projecting each onto the requested
column range. -/
def parseRows (data : List Nat) (skipRows maxRows : Nat) (startCol colCount : Int) :
    List (List (List Nat)) :=
  parseEmit maxRows (skipLines data skipRows) startCol colCount

/-- Build the `slice_response` value (shared by every return of
`getSlice`): `rowCount` is the number of rows actually produced, and
`colLetters` is `COL_LETTERS.slice(startCol, startCol + colCount)`. -/
def mkSliceResponse (startRow : Int) (startCol colCount : Int)
    (rows : List (List (List Nat))) : SliceResponse :=
  { startRow := startRow
    rowCount := rows.length
    startCol := startCol
    colCount := colCount
    colLetters := jsSlice COL_LETTERS startCol (startCol + colCount)
    cellsByRow := rows }

/-- The main branch of `Slicer.getSlice` (after clamping has established
`startRow ≥ 0` and `rowCount ≥ 1`, both now naturals): locate the anchor
from the index, read an initial chunk, parse, and retry once with a larger
chunk on an under-read.  `slicer.fst` is the data file's bytes and the
chunk read `file.slice(offset, offset + length)` is `drop`/`take`. -/
def getSliceCore (file : List Nat) (index : FileIndex) (startRow rowCount : Nat)
    (startCol colCount : Int) : SliceResponse :=
  let indexEntry := startRow / index.granularity
  let indexOffset := index.offsets.getD indexEntry 0
  let rowsToSkip := startRow - indexEntry * index.granularity
  let estimatedBytesNeeded := (rowsToSkip + rowCount) * 30
  let bytesToRead := min (max estimatedBytesNeeded READ_BUFFER_SIZE) (file.length - indexOffset)
  let chunk := (file.drop indexOffset).take bytesToRead
  let rows := parseRows chunk rowsToSkip rowCount startCol colCount
  if rows.length < rowCount ∧ startRow + rows.length < index.totalRows then
    let newBytesToRead :=
      min (bytesToRead + (rowCount - rows.length) * 50) (file.length - indexOffset)
    if bytesToRead < newBytesToRead then
      let largerChunk := (file.drop indexOffset).take newBytesToRead
      let moreRows := parseRows largerChunk rowsToSkip rowCount startCol colCount
      mkSliceResponse startRow startCol colCount moreRows
    else
      mkSliceResponse startRow startCol colCount rows
  else
    mkSliceResponse startRow startCol colCount rows

/-- `Slicer.getSlice` from `slicer.ts`: clamp the four request parameters
(JavaScript numbers, here `Int`), return the empty response when the
clamped `rowCount` is non-positive, and otherwise run the main branch. -/
def getSlice (file : List Nat) (index : FileIndex)
    (startRow0 rowCount0 startCol0 colCount0 : Int) : SliceResponse :=
  let totalRows : Int := index.totalRows
  let startRow := max 0 (min startRow0 (totalRows - 1))
  let rowCount := min rowCount0 (totalRows - startRow)
  let startCol := max 0 (min startCol0 (TOTAL_COLS - 1))
  let colCount := min colCount0 (TOTAL_COLS - startCol)
  if rowCount ≤ 0 then
    { startRow := startRow
      rowCount := 0
      startCol := startCol
      colCount := colCount
      colLetters := jsSlice COL_LETTERS startCol (startCol + colCount)
      cellsByRow := [] }
  else
    getSliceCore file index startRow.toNat rowCount.toNat startCol colCount

/-- Input record of `computeSliceParams` (`slicer.ts`); all fields are
JavaScript numbers, modelled as integers. -/
structure ViewportParams where
  screenWidth : Int
  screenHeight : Int
  horizontalBuffer : Int
  verticalBuffer : Int
  defaultColumnWidth : Int
  defaultRowHeight : Int
  scrollLeft : Int
  scrollTop : Int
  maxRows : Int
  maxCols : Int
  deriving Repr, DecidableEq

/-- Result record of `computeSliceParams`. -/
structure WindowSlice where
  startRow : Int
  rowCount : Int
  startCol : Int
  colCount : Int
  deriving Repr, DecidableEq

/-- `Math.ceil(a / b)` on integers with `b > 0`. -/
def jsCeilDiv (a b : Int) : Int := -(Int.fdiv (-a) b)

/-- `computeSliceParams` from `slicer.ts`: floor the scroll offsets into a
start row/column, add the visible extent plus twice the buffers, clamp to
what remains below `maxRows` / `maxCols`, apply the safety caps 1000 and
200, and floor every returned field at 0.  `Math.floor(a / b)` with `b > 0`
is `Int.fdiv`. -/
def computeSliceParams (p : ViewportParams) : WindowSlice :=
  let startRow := Int.fdiv p.scrollTop p.defaultRowHeight
  let visibleRows := jsCeilDiv p.screenHeight p.defaultRowHeight
  let rowCount := visibleRows + p.verticalBuffer * 2
  let remainingRows := p.maxRows - startRow
  let rowCount1 := if remainingRows < rowCount then remainingRows else rowCount
  let startCol := Int.fdiv p.scrollLeft p.defaultColumnWidth
  let visibleCols := jsCeilDiv p.screenWidth p.defaultColumnWidth
  let colCount := visibleCols + p.horizontalBuffer * 2
  let remainingCols := p.maxCols - startCol
  let colCount1 := if remainingCols < colCount then remainingCols else colCount
  let rowCount2 := min rowCount1 1000
  let colCount2 := min colCount1 200
  { startRow := max 0 startRow
    rowCount := max 0 rowCount2
    startCol := max 0 startCol
    colCount := max 0 colCount2 }

/-- The digit loop of `columnIndexToLetters` (frontend `computeWindow`
module): push `'A' + n % 26`, step to `⌊n / 26⌋ - 1`, stop when `⌊n / 26⌋`
is 0.  The loop runs at most `n + 1` times, so a fuel of `n + 1` makes the
recursion structural. -/
def colCharsAux : Nat → Nat → List Char
  | 0, _ => []
  | fuel + 1, n =>
    let rem := n % 26
    let c := Char.ofNat (65 + rem)
    let n2 := n / 26
    if n2 = 0 then [c] else c :: colCharsAux fuel (n2 - 1)

/-- `columnIndexToLetters` from the frontend `computeWindow` module.  The
source first coerces with `index >>> 0`, i.e. reduces the integer input
modulo `2 ^ 32`, then emits base-26 digits least-significant first and
reverses them. -/
def columnIndexToLetters (index : Nat) : String :=
  let n := index % 2 ^ 32
  String.mk (colCharsAux (n + 1) n).reverse

/-- Modelled from the spec's words in §4.3 (`colLetters`): the base-26
scheme with `A = 0` and no zero digit — "repeatedly take `n mod 26`, emit
`'A'+rem`, then `n = ⌊n/26⌋ − 1`, until `n < 0`" — with no coercion of the
input.  Used as the comparison point for the column-letter claim. -/
def specColDigitsAux : Nat → Nat → List Char
  | 0, _ => []
  | fuel + 1, n =>
    Char.ofNat (65 + n % 26) ::
      (if n / 26 = 0 then [] else specColDigitsAux fuel (n / 26 - 1))

/-- Modelled from the spec: the column label scheme of §4.3, digits
reversed into most-significant-first order. -/
def specColumnLetters (n : Nat) : String :=
  String.mk ((specColDigitsAux (n + 1) n).reverse)

/-- Little-endian serialization of one 64-bit word, as
`DataView.setBigUint64(..., true)` writes it; values are wrapped modulo
`2 ^ 64` by the byte decomposition itself. -/
def toLE64 (n : Nat) : List Nat :=
  [n % 256, n / 256 % 256, n / 256 ^ 2 % 256, n / 256 ^ 3 % 256,
   n / 256 ^ 4 % 256, n / 256 ^ 5 % 256, n / 256 ^ 6 % 256, n / 256 ^ 7 % 256]

/-- Little-endian deserialization of a byte list, as
`DataView.getBigUint64(..., true)` reads 8 bytes. -/
def fromLE64 (bs : List Nat) : Nat :=
  bs.foldr (fun b acc => b + 256 * acc) 0

/-- `saveIndex` from `indexer.ts`: the 16-byte header (`totalRows` then
`granularity`, both little-endian u64) followed by the offsets as raw
little-endian u64 words. -/
def saveIndex (index : FileIndex) : List Nat :=
  toLE64 index.totalRows ++ toLE64 index.granularity ++ (index.offsets.map toLE64).flatten

/-- Reading the offset area back as a `BigUint64Array`: consume 8 bytes
per word.  (`loadIndex` only calls this on an area whose length is a
multiple of 8.) -/
def decodeOffsets : List Nat → List Nat
  | b0 :: b1 :: b2 :: b3 :: b4 :: b5 :: b6 :: b7 :: rest =>
    fromLE64 [b0, b1, b2, b3, b4, b5, b6, b7] :: decodeOffsets rest
  | _ => []

/-- `loadIndex` from `indexer.ts`.  The input is `none` when the index
file is absent (the `file.exists()` check), in which case the source
returns `null`.  On a present file the source reads the two header words
with `DataView.getBigUint64` — which throws a `RangeError` when the buffer
holds fewer than 16 bytes — and constructs a `BigUint64Array` over the
rest — which throws when that length is not a multiple of 8.  Thrown
exceptions are modelled with `Except.error`. -/
def loadIndex (file : Option (List Nat)) : Except String (Option FileIndex) :=
  match file with
  | none => Except.ok none
  | some bytes =>
    if bytes.length < 16 then Except.error "RangeError: offset is outside the bounds of the DataView"
    else if (bytes.length - 16) % 8 ≠ 0 then
      Except.error "RangeError: buffer length is not a multiple of 8"
    else
      Except.ok (some
        { totalRows := fromLE64 (bytes.take 8)
          granularity := fromLE64 ((bytes.drop 8).take 8)
          offsets := decodeOffsets (bytes.drop 16) })

/-- The outcome of `getOrBuildIndex`: either the cached index was accepted
as-is, or the builder ran and its result is used. -/
inductive IndexSource where
  | fromCache (index : FileIndex)
  | rebuilt (index : FileIndex)
  deriving Repr, DecidableEq

/-- `Math.ceil(a / b)` on naturals with `b > 0`. -/
def jsCeilDivNat (a b : Nat) : Nat := (a + b - 1) / b

/-- The decision logic of `getOrBuildIndex` from `indexer.ts`: `cached` is
the result of loading the cached index file (when configured and present),
`fileSize` is the current data file's size, and `built` stands for the
index the builder would produce.  A cached index is kept exactly when its
`totalRows` lies between `Math.floor(fileSize / 50)` and
`Math.ceil(fileSize / 5)`; otherwise the builder runs. -/
def getOrBuildIndex (cached : Option FileIndex) (fileSize : Nat) (built : FileIndex) :
    IndexSource :=
  match cached with
  | none => IndexSource.rebuilt built
  | some c =>
    let expectedMinRows := fileSize / 50
    let expectedMaxRows := jsCeilDivNat fileSize 5
    if expectedMinRows ≤ c.totalRows ∧ c.totalRows ≤ expectedMaxRows then
      IndexSource.fromCache c
    else
      IndexSource.rebuilt built

instance {ε α : Type} [DecidableEq ε] [DecidableEq α] : DecidableEq (Except ε α) := fun a b =>
  match a, b with
  | Except.error x, Except.error y =>
    if h : x = y then Decidable.isTrue (congrArg Except.error h)
    else Decidable.isFalse (fun hc => h (Except.error.inj hc))
  | Except.ok x, Except.ok y =>
    if h : x = y then Decidable.isTrue (congrArg Except.ok h)
    else Decidable.isFalse (fun hc => h (Except.ok.inj hc))
  | Except.error _, Except.ok _ => Decidable.isFalse (fun hc => Except.noConfusion hc)
  | Except.ok _, Except.error _ => Decidable.isFalse (fun hc => Except.noConfusion hc)

/-- Byte offset of record `m` in a record-structured file: the summed
lengths (terminator included) of the records before it. -/
def recOffset (recs : List (List Nat)) (m : Nat) : Nat :=
  ((recs.take m).map (fun r => r.length + 1)).sum

/-- The anchors the builder pushes while scanning a record-structured
file, starting at absolute position `pos` with `sl` rows counted since the
last anchor: one anchor at the end of every `G`-th record. -/
def anchorsFrom (G : Nat) : List (List Nat) → Nat → Nat → List Nat
  | [], _, _ => []
  | r :: rest, pos, sl =>
    let posNext := pos + r.length + 1
    if G ≤ sl + 1 then posNext :: anchorsFrom G rest posNext 0
    else anchorsFrom G rest posNext (sl + 1)

/-- C1 counterexample: on the seed file with granularity 2,
`getSlice(10, 5, 0, 2)` does not return the clamped empty response — its
`rowCount` is not 0 and it carries a cell row. -/
theorem getSlice_pastEnd_not_empty :
    (getSlice seedFile (buildIndex seedFile 2) 10 5 0 2).rowCount ≠ 0 ∧
    (getSlice seedFile (buildIndex seedFile 2) 10 5 0 2).cellsByRow ≠ [] := by
  decide

/-- C1 (amended): on the seed file, `getSlice(startRow=10, rowCount=5,
startCol=0, colCount=2)` clamps `startRow` to the last row (4) and
`rowCount` to 1, returning the single record `Cracow;12.6` split into its
two cells. -/
theorem getSlice_pastEnd_clamps_to_last :
    getSlice seedFile (buildIndex seedFile 2) 10 5 0 2 =
      { startRow := 4, rowCount := 1, startCol := 0, colCount := 2,
        colLetters := ["A", "B"],
        cellsByRow := [[[67, 114, 97, 99, 111, 119], [49, 50, 46, 54]]] } := by
  decide

/-- C4 counterexample: on the seed file, `buildIndex` with granularity 2
produces offsets `[0, 26, 57]`, not the `[0, 26, 60]` the claim states
(the seed file is 69 bytes, and row 4 starts at byte 57). -/
theorem buildIndex_seed_offsets_cx :
    (buildIndex seedFile 2).offsets ≠ [0, 26, 60] ∧ seedFile.length = 69 := by
  decide

/-- C4 (amended): `buildIndex` with granularity 2 on the seed file yields
`totalRows = 5` and `offsets = [0, 26, 57]` (anchors before rows 0, 2
and 4, which start at bytes 0, 26 and 57 of the 69-byte file). -/
theorem buildIndex_seed_value :
    buildIndex seedFile 2 =
      { totalRows := 5, offsets := [0, 26, 57], granularity := 2 } := by
  decide

/-- C5 counterexample: `computeSliceParams` does not clamp `startRow`
below `maxRows`.  With `scrollTop = 240`, `defaultRowHeight = 24` and
`maxRows = 5` the returned `startRow` is 10, which is not `< maxRows`
even though `maxRows > 0`. -/
theorem computeSliceParams_no_upper_clamp_cx :
    (computeSliceParams
      { screenWidth := 1000, screenHeight := 480, horizontalBuffer := 2,
        verticalBuffer := 5, defaultColumnWidth := 100, defaultRowHeight := 24,
        scrollLeft := 0, scrollTop := 240, maxRows := 5, maxCols := 2 }).startRow = 10 ∧
    ¬((computeSliceParams
      { screenWidth := 1000, screenHeight := 480, horizontalBuffer := 2,
        verticalBuffer := 5, defaultColumnWidth := 100, defaultRowHeight := 24,
        scrollLeft := 0, scrollTop := 240, maxRows := 5, maxCols := 2 }).startRow < 5) := by
  decide

/-- C5 (amended): the returned `startRow` is `⌊scrollTop /
defaultRowHeight⌋` clamped below at 0 only — there is no upper clamp at
`maxRows`; instead, whenever the floored start row is at or past
`maxRows`, the returned `rowCount` is 0. -/
theorem computeSliceParams_startRow_amended (p : ViewportParams)
    (h : 0 < p.defaultRowHeight) :
    (computeSliceParams p).startRow = max 0 (Int.fdiv p.scrollTop p.defaultRowHeight) ∧
    (p.maxRows ≤ Int.fdiv p.scrollTop p.defaultRowHeight →
      (computeSliceParams p).rowCount = 0) := by
  refine ⟨rfl, fun hm => ?_⟩
  simp only [computeSliceParams]
  split_ifs <;> omega

/-- C5 witness: the amended statement applied to the counterexample
viewport. -/
theorem computeSliceParams_startRow_amended_witness :
    (0 : Int) < 24 ∧
    ((computeSliceParams
      { screenWidth := 1000, screenHeight := 480, horizontalBuffer := 2,
        verticalBuffer := 5, defaultColumnWidth := 100, defaultRowHeight := 24,
        scrollLeft := 0, scrollTop := 240, maxRows := 5, maxCols := 2 }).startRow =
        max 0 (Int.fdiv 240 24) ∧
      ((5 : Int) ≤ Int.fdiv 240 24 →
        (computeSliceParams
          { screenWidth := 1000, screenHeight := 480, horizontalBuffer := 2,
            verticalBuffer := 5, defaultColumnWidth := 100, defaultRowHeight := 24,
            scrollLeft := 0, scrollTop := 240, maxRows := 5, maxCols := 2 }).rowCount = 0)) :=
  ⟨by decide,
    computeSliceParams_startRow_amended
      { screenWidth := 1000, screenHeight := 480, horizontalBuffer := 2,
        verticalBuffer := 5, defaultColumnWidth := 100, defaultRowHeight := 24,
        scrollLeft := 0, scrollTop := 240, maxRows := 5, maxCols := 2 } (by decide)⟩

/-- C7: a successfully loaded cached index is accepted (returned as-is)
exactly when `⌊S/50⌋ ≤ totalRows ≤ ⌈S/5⌉` for the current data-file size
`S`, and the builder's result is used exactly when that condition
fails. -/
theorem getOrBuildIndex_accepts_iff (c built : FileIndex) (S : Nat) :
    (getOrBuildIndex (some c) S built = IndexSource.fromCache c ↔
      S / 50 ≤ c.totalRows ∧ c.totalRows ≤ (S + 4) / 5) ∧
    (getOrBuildIndex (some c) S built = IndexSource.rebuilt built ↔
      ¬(S / 50 ≤ c.totalRows ∧ c.totalRows ≤ (S + 4) / 5)) := by
  have hceil : jsCeilDivNat S 5 = (S + 4) / 5 := by unfold jsCeilDivNat; omega
  simp only [getOrBuildIndex, hceil]
  split_ifs with h
  · simp [h]
  · simp [h]

/-- C8: `loadIndex` returns `none` exactly on an absent file, and fails
loudly (an `error` result, never a loaded index) on every present but
malformed file — one whose length is below the 16-byte header, or whose
length past the header is not a multiple of 8. -/
theorem loadIndex_absent_and_malformed (bytes : List Nat)
    (h : bytes.length < 16 ∨ (bytes.length - 16) % 8 ≠ 0) :
    loadIndex none = Except.ok none ∧
    (∃ msg, loadIndex (some bytes) = Except.error msg) ∧
    (∀ b2 : List Nat, loadIndex (some b2) ≠ Except.ok none) := by
  refine ⟨rfl, ?_, ?_⟩
  · simp only [loadIndex]
    split_ifs with h1 h2
    · exact ⟨_, rfl⟩
    · exact ⟨_, rfl⟩
    · omega
  · intro b2 hc
    simp only [loadIndex] at hc
    split_ifs at hc <;> simp at hc

/-- C8 witness: a 3-byte file is malformed (truncated header) and
`loadIndex` treats it as the theorem states. -/
theorem loadIndex_absent_and_malformed_witness :
    (([0, 0, 0] : List Nat).length < 16 ∨ (([0, 0, 0] : List Nat).length - 16) % 8 ≠ 0) ∧
    (loadIndex none = Except.ok none ∧
      (∃ msg, loadIndex (some [0, 0, 0]) = Except.error msg) ∧
      (∀ b2 : List Nat, loadIndex (some b2) ≠ Except.ok none)) :=
  ⟨by decide, loadIndex_absent_and_malformed [0, 0, 0] (by decide)⟩

/-- C9 counterexample: the source coerces its argument with `>>> 0`, so at
`2 ^ 32` the function restarts at `"A"` instead of following the base-26
scheme (whose value at `2 ^ 32` is not `"A"`). -/
theorem columnIndexToLetters_wraps_cx :
    columnIndexToLetters (2 ^ 32) = "A" ∧ specColumnLetters (2 ^ 32) ≠ "A" := by
  decide

/-- Helper for the column-letter claim: below the coercion the code loop
and the spec loop emit identical digit lists. -/
theorem colCharsAux_eq_spec (fuel : Nat) : ∀ n, colCharsAux fuel n = specColDigitsAux fuel n := by
  induction fuel with
  | zero => intro n; rfl
  | succ f ih =>
    intro n
    simp only [colCharsAux, specColDigitsAux]
    split <;> simp [ih]

/-- C9 (amended): `columnIndexToLetters` agrees with the base-26
`A = 0`, no-zero-digit scheme on every non-negative integer below `2 ^ 32`
(the `>>> 0` coercion wraps larger inputs), and takes the claimed values
`A`, `Z`, `AA`, `ZZ`, `AAA` at 0, 25, 26, 701, 702. -/
theorem columnIndexToLetters_spec_amended (n : Nat) (h : n < 2 ^ 32) :
    columnIndexToLetters n = specColumnLetters n ∧
    columnIndexToLetters 0 = "A" ∧ columnIndexToLetters 25 = "Z" ∧
    columnIndexToLetters 26 = "AA" ∧ columnIndexToLetters 701 = "ZZ" ∧
    columnIndexToLetters 702 = "AAA" := by
  refine ⟨?_, by decide, by decide, by decide, by decide, by decide⟩
  simp only [columnIndexToLetters, specColumnLetters, Nat.mod_eq_of_lt h]
  rw [colCharsAux_eq_spec]

/-- C9 witness: the amended statement applied at 27 (column `AB`). -/
theorem columnIndexToLetters_spec_amended_witness :
    (27 : Nat) < 2 ^ 32 ∧
    (columnIndexToLetters 27 = specColumnLetters 27 ∧
      columnIndexToLetters 0 = "A" ∧ columnIndexToLetters 25 = "Z" ∧
      columnIndexToLetters 26 = "AA" ∧ columnIndexToLetters 701 = "ZZ" ∧
      columnIndexToLetters 702 = "AAA") :=
  ⟨by decide, columnIndexToLetters_spec_amended 27 (by decide)⟩

/-- Helper: one little-endian word round-trips up to the 64-bit wrap. -/
theorem fromLE64_toLE64 (n : Nat) : fromLE64 (toLE64 n) = n % 2 ^ 64 := by
  simp only [toLE64, fromLE64, List.foldr]
  norm_num
  omega

/-- Helper: `toLE64` always produces 8 bytes. -/
theorem toLE64_length (n : Nat) : (toLE64 n).length = 8 := rfl

/-- Helper: decoding the concatenated words recovers the offsets up to the
64-bit wrap. -/
theorem decodeOffsets_flatten (l : List Nat) :
    decodeOffsets ((l.map toLE64).flatten) = l.map (· % 2 ^ 64) := by
  induction l with
  | nil => rfl
  | cons x xs ih =>
    have hx := fromLE64_toLE64 x
    simp only [toLE64] at hx
    simp at hx
    simp [toLE64, decodeOffsets, hx, ih]

/-- Helper: the serialized index is the 16-byte header followed by 8 bytes
per offset. -/
theorem saveIndex_length (idx : FileIndex) :
    (saveIndex idx).length = 16 + 8 * idx.offsets.length := by
  have hf : ∀ l : List Nat, ((l.map toLE64).flatten).length = 8 * l.length := by
    intro l
    induction l with
    | nil => rfl
    | cons x xs ih =>
      simp only [List.map_cons, List.flatten_cons, List.length_append, ih, toLE64_length,
        List.length_cons]
      ring
  simp only [saveIndex, List.length_append, toLE64_length, hf]

/-- C6: saving an index and loading the written bytes back yields a
structurally identical index — the same `totalRows`, `granularity` and
`offsets` — whenever the stored values fit in the on-disk unsigned 64-bit
words. -/
theorem saveIndex_loadIndex_roundtrip (idx : FileIndex)
    (h1 : idx.totalRows < 2 ^ 64) (h2 : idx.granularity < 2 ^ 64)
    (h3 : ∀ o ∈ idx.offsets, o < 2 ^ 64) :
    loadIndex (some (saveIndex idx)) = Except.ok (some idx) := by
  have hlen := saveIndex_length idx
  have htake8 : (saveIndex idx).take 8 = toLE64 idx.totalRows := by
    simp only [saveIndex]
    rw [List.take_append_of_le_length (by simp [toLE64_length])]
    simp [toLE64_length, List.take_of_length_le]
  have hdrop8 : (saveIndex idx).drop 8 = toLE64 idx.granularity ++ (idx.offsets.map toLE64).flatten := by
    simp only [saveIndex]
    rw [List.append_assoc, show (8 : Nat) = (toLE64 idx.totalRows).length from rfl,
      List.drop_left]
  have hdrop16 : (saveIndex idx).drop 16 = (idx.offsets.map toLE64).flatten := by
    have : (16 : Nat) = 8 + 8 := rfl
    rw [this, ← List.drop_drop, hdrop8,
      show (8 : Nat) = (toLE64 idx.granularity).length from rfl, List.drop_left]
  simp only [loadIndex]
  rw [if_neg (by omega), if_neg (by omega)]
  rw [htake8, hdrop16]
  rw [show ((saveIndex idx).drop 8).take 8 = toLE64 idx.granularity by
    rw [hdrop8, List.take_append_of_le_length (by simp [toLE64_length])]
    simp [toLE64_length, List.take_of_length_le]]
  rw [fromLE64_toLE64, fromLE64_toLE64, decodeOffsets_flatten,
    Nat.mod_eq_of_lt h1, Nat.mod_eq_of_lt h2]
  have hmap : ∀ l : List Nat, (∀ o ∈ l, o < 2 ^ 64) → l.map (· % 2 ^ 64) = l := by
    intro l
    induction l with
    | nil => intro _; rfl
    | cons a as ih =>
      intro hl
      simp only [List.map_cons]
      rw [Nat.mod_eq_of_lt (hl a (List.mem_cons_self a as)),
        ih (fun o ho => hl o (List.mem_cons_of_mem a ho))]
  rw [hmap idx.offsets h3]

/-- C6 witness: the round trip on the index built from the seed file. -/
theorem saveIndex_loadIndex_roundtrip_witness :
    ((buildIndex seedFile 2).totalRows < 2 ^ 64 ∧
      (buildIndex seedFile 2).granularity < 2 ^ 64 ∧
      ∀ o ∈ (buildIndex seedFile 2).offsets, o < 2 ^ 64) ∧
    loadIndex (some (saveIndex (buildIndex seedFile 2))) =
      Except.ok (some (buildIndex seedFile 2)) :=
  ⟨⟨by decide, by decide, by decide⟩,
    saveIndex_loadIndex_roundtrip (buildIndex seedFile 2) (by decide) (by decide) (by decide)⟩

/-- C3 counterexample: on the 2-byte file `a\n` with granularity 1, the
builder pushes offset 2, which equals the file size — the offsets are not
all strictly below `fileSize`. -/
theorem buildIndex_offset_eq_fileSize_cx :
    (buildIndex [97, 10] 1).offsets = [0, 2] ∧
    ¬((buildIndex [97, 10] 1).offsets.getD 1 0 < ([97, 10] : List Nat).length) := by
  decide

/-- Helper for the index-monotonicity claim: the builder loop, started
with a strictly decreasing accumulator bounded by the current position,
returns a strictly increasing offsets list bounded by the final
position. -/
theorem buildIndexGo_sorted (G : Nat) (bs : List Nat) :
    ∀ pos tr sl acc, acc.Pairwise (· > ·) → (∀ x ∈ acc, x ≤ pos) →
      (buildIndexGo G bs pos tr sl acc).2.Pairwise (· < ·) ∧
      ∀ x ∈ (buildIndexGo G bs pos tr sl acc).2, x ≤ pos + bs.length := by
  induction bs with
  | nil =>
    intro pos tr sl acc hp hb
    refine ⟨?_, ?_⟩
    · rw [buildIndexGo, List.pairwise_reverse]
      exact hp
    · intro x hx
      rw [buildIndexGo] at hx
      simpa using hb x (List.mem_reverse.mp hx)
  | cons b rest ih =>
    intro pos tr sl acc hp hb
    rw [buildIndexGo]
    split_ifs with h1 h2
    · have hp2 : ((pos + 1) :: acc).Pairwise (· > ·) := by
        rw [List.pairwise_cons]
        exact ⟨fun y hy => by have := hb y hy; omega, hp⟩
      have hb2 : ∀ x ∈ (pos + 1) :: acc, x ≤ pos + 1 := by
        intro x hx
        rcases List.mem_cons.mp hx with h | h
        · omega
        · have := hb x h; omega
      have := ih (pos + 1) (tr + 1) 0 ((pos + 1) :: acc) hp2 hb2
      refine ⟨this.1, fun x hx => ?_⟩
      have := this.2 x hx
      simp only [List.length_cons]
      omega
    · have := ih (pos + 1) (tr + 1) (sl + 1) acc hp (fun x hx => by have := hb x hx; omega)
      refine ⟨this.1, fun x hx => ?_⟩
      have := this.2 x hx
      simp only [List.length_cons]
      omega
    · have := ih (pos + 1) tr sl acc hp (fun x hx => by have := hb x hx; omega)
      refine ⟨this.1, fun x hx => ?_⟩
      have := this.2 x hx
      simp only [List.length_cons]
      omega

/-- C3 (amended): for every input file and granularity, the offsets array
produced by `buildIndex` is strictly increasing and every entry is at most
`fileSize`: `offsets[k] < offsets[k+1] ≤ fileSize`.  (The entry can equal
`fileSize` when the file's last byte is a newline landing on a granularity
boundary, so the strict bound of the claim fails.) -/
theorem buildIndex_offsets_strict_mono (bytes : List Nat) (G : Nat) (k : Nat)
    (h : k + 1 < (buildIndex bytes G).offsets.length) :
    (buildIndex bytes G).offsets.getD k 0 < (buildIndex bytes G).offsets.getD (k + 1) 0 ∧
    (buildIndex bytes G).offsets.getD (k + 1) 0 ≤ bytes.length := by
  have hsorted := buildIndexGo_sorted G bytes 0 0 0 [0] (by simp) (by simp)
  have hoff : (buildIndex bytes G).offsets = (buildIndexGo G bytes 0 0 0 [0]).2 := rfl
  have hk : k < (buildIndex bytes G).offsets.length := by omega
  rw [hoff] at h hk ⊢
  rw [List.getD_eq_getElem _ 0 h, List.getD_eq_getElem _ 0 hk]
  constructor
  · have := (List.pairwise_iff_get.mp hsorted.1) ⟨k, hk⟩ ⟨k + 1, h⟩ (by simp)
    simpa using this
  · have hmem : (buildIndexGo G bytes 0 0 0 [0]).2[k + 1] ∈ (buildIndexGo G bytes 0 0 0 [0]).2 :=
      List.getElem_mem h
    have := hsorted.2 _ hmem
    omega

/-- C3 witness: the amended statement on the seed file at `k = 0`. -/
theorem buildIndex_offsets_strict_mono_witness :
    0 + 1 < (buildIndex seedFile 2).offsets.length ∧
    ((buildIndex seedFile 2).offsets.getD 0 0 < (buildIndex seedFile 2).offsets.getD (0 + 1) 0 ∧
      (buildIndex seedFile 2).offsets.getD (0 + 1) 0 ≤ seedFile.length) :=
  ⟨by decide, buildIndex_offsets_strict_mono seedFile 2 0 (by decide)⟩

/-- Helper: a JavaScript slice of width `c ≥ 0` starting at `s ≥ 0` has at
most `c` elements. -/
theorem jsSlice_length_le {α : Type} (l : List α) (s c : Int) (hs : 0 ≤ s) (hc : 0 ≤ c) :
    (jsSlice l s (s + c)).length ≤ c.toNat := by
  simp only [jsSlice]
  rw [if_neg (by omega), if_neg (by omega)]
  simp only [List.length_take, List.length_drop]
  omega

/-- Helper: each projected row has exactly `colCount` cells (the slice is
padded up to `colCount` with empty cells). -/
theorem projectCols_length (cells : List (List Nat)) (sc cc : Int)
    (hsc : 0 ≤ sc) (hcc : 0 ≤ cc) :
    (projectCols cells sc cc).length = cc.toNat := by
  have hle := jsSlice_length_le cells sc cc hsc hcc
  simp only [projectCols, List.length_append, List.length_replicate]
  omega

/-- Helper: every row emitted by the parse loop has exactly `colCount`
cells. -/
theorem parseEmit_mem_length (m : Nat) :
    ∀ (data : List Nat) (sc cc : Int), 0 ≤ sc → 0 ≤ cc →
      ∀ row ∈ parseEmit m data sc cc, row.length = cc.toNat := by
  induction m with
  | zero => intro data sc cc _ _ row hrow; simp [parseEmit] at hrow
  | succ m ih =>
    intro data sc cc hsc hcc row hrow
    rw [parseEmit] at hrow
    split_ifs at hrow with hd
    · simp at hrow
    · rcases List.mem_cons.mp hrow with h | h
      · rw [h]; exact projectCols_length _ sc cc hsc hcc
      · exact ih _ sc cc hsc hcc row h

/-- Helper: the response assembled from any parse result is internally
consistent — `rowCount` is the number of cell rows, and each row has
`colCount` cells. -/
theorem mkSliceResponse_of_parse (sr : Int) (sc cc : Int) (hsc : 0 ≤ sc) (hcc : 0 ≤ cc)
    (data : List Nat) (skip maxRows : Nat) :
    ((mkSliceResponse sr sc cc (parseRows data skip maxRows sc cc)).cellsByRow.length : Int) =
        (mkSliceResponse sr sc cc (parseRows data skip maxRows sc cc)).rowCount ∧
      ∀ row ∈ (mkSliceResponse sr sc cc (parseRows data skip maxRows sc cc)).cellsByRow,
        (row.length : Int) = (mkSliceResponse sr sc cc (parseRows data skip maxRows sc cc)).colCount := by
  refine ⟨rfl, fun row hrow => ?_⟩
  have := parseEmit_mem_length maxRows (skipLines data skip) sc cc hsc hcc row hrow
  simp only [mkSliceResponse, this]
  omega

/-- Helper: the main branch of `getSlice` is internally consistent for any
clamped column parameters. -/
theorem getSliceCore_consistent (file : List Nat) (index : FileIndex) (sr rc : Nat)
    (sc cc : Int) (hsc : 0 ≤ sc) (hcc : 0 ≤ cc) :
    ((getSliceCore file index sr rc sc cc).cellsByRow.length : Int) =
        (getSliceCore file index sr rc sc cc).rowCount ∧
      ∀ row ∈ (getSliceCore file index sr rc sc cc).cellsByRow,
        (row.length : Int) = (getSliceCore file index sr rc sc cc).colCount := by
  rw [getSliceCore]
  split_ifs with h1
  · dsimp only
    split_ifs with h2
    · exact mkSliceResponse_of_parse _ sc cc hsc hcc _ _ _
    · exact mkSliceResponse_of_parse _ sc cc hsc hcc _ _ _
  · exact mkSliceResponse_of_parse _ sc cc hsc hcc _ _ _

/-- C10: for every slicer state and every request whose four arguments are
non-negative, the response of `getSlice` is internally consistent: the
number of cell rows equals the response's `rowCount` field, and every cell
row has exactly `colCount` cells (short records are padded with empty
cells). -/
theorem getSlice_response_consistent (file : List Nat) (index : FileIndex)
    (s0 r0 c0 k0 : Int) (hs : 0 ≤ s0) (hr : 0 ≤ r0) (hc : 0 ≤ c0) (hk : 0 ≤ k0) :
    ((getSlice file index s0 r0 c0 k0).cellsByRow.length : Int) =
        (getSlice file index s0 r0 c0 k0).rowCount ∧
      ∀ row ∈ (getSlice file index s0 r0 c0 k0).cellsByRow,
        (row.length : Int) = (getSlice file index s0 r0 c0 k0).colCount := by
  rw [getSlice]
  split_ifs with h1
  · exact ⟨rfl, fun row hrow => by simp at hrow⟩
  · exact getSliceCore_consistent file index _ _ _ _ (by omega) (by simp [TOTAL_COLS]; omega)

/-- C10 witness: the consistency statement on the seed file for the
request `(3, 10, 0, 2)`. -/
theorem getSlice_response_consistent_witness :
    ((0 : Int) ≤ 3 ∧ (0 : Int) ≤ 10 ∧ (0 : Int) ≤ 0 ∧ (0 : Int) ≤ 2) ∧
    (((getSlice seedFile (buildIndex seedFile 2) 3 10 0 2).cellsByRow.length : Int) =
        (getSlice seedFile (buildIndex seedFile 2) 3 10 0 2).rowCount ∧
      ∀ row ∈ (getSlice seedFile (buildIndex seedFile 2) 3 10 0 2).cellsByRow,
        (row.length : Int) = (getSlice seedFile (buildIndex seedFile 2) 3 10 0 2).colCount) :=
  ⟨⟨by decide, by decide, by decide, by decide⟩,
    getSlice_response_consistent seedFile (buildIndex seedFile 2) 3 10 0 2
      (by decide) (by decide) (by decide) (by decide)⟩

/-- C2 counterexample: a 3-byte file of three empty records.  The index
counts 3 rows, the request `(0, 3, 0, 2)` satisfies the claim's
hypotheses, but the parser silently skips empty lines, the one retry
cannot grow past the end of file, and the response's `rowCount` is 0, not
3. -/
theorem getSlice_rowCount_empty_lines_cx :
    (buildIndex [10, 10, 10] 1).totalRows = 3 ∧
    (getSlice [10, 10, 10] (buildIndex [10, 10, 10] 1) 0 3 0 2).rowCount ≠ 3 := by
  decide

/-- Helper: the builder loop walks through newline-free bytes changing
only its position. -/
theorem buildIndexGo_nonNL (G : Nat) (r : List Nat) (hr : NEWLINE ∉ r) :
    ∀ (bs : List Nat) (pos tr sl : Nat) (acc : List Nat),
      buildIndexGo G (r ++ bs) pos tr sl acc = buildIndexGo G bs (pos + r.length) tr sl acc := by
  induction r with
  | nil => intro bs pos tr sl acc; simp
  | cons b rest ih =>
    intro bs pos tr sl acc
    have hb : b ≠ NEWLINE := fun hEq => hr (hEq ▸ List.mem_cons_self b rest)
    have hrest : NEWLINE ∉ rest := fun hmem => hr (List.mem_cons_of_mem b hmem)
    rw [List.cons_append, buildIndexGo, if_neg hb, ih hrest]
    simp only [List.length_cons]
    ring_nf

/-- Helper: the builder loop over a record-structured file counts one row
per record and pushes exactly the anchors of `anchorsFrom`. -/
theorem buildIndexGo_flatJoin (G : Nat) :
    ∀ (recs : List (List Nat)), (∀ r ∈ recs, NEWLINE ∉ r) →
      ∀ (pos tr sl : Nat) (acc : List Nat),
        buildIndexGo G (flatJoin recs) pos tr sl acc =
          (tr + recs.length, acc.reverse ++ anchorsFrom G recs pos sl) := by
  intro recs
  induction recs with
  | nil => intro _ pos tr sl acc; simp [flatJoin, buildIndexGo, anchorsFrom]
  | cons r rest ih =>
    intro hmem pos tr sl acc
    have hr : NEWLINE ∉ r := hmem r (List.mem_cons_self r rest)
    have hrest : ∀ x ∈ rest, NEWLINE ∉ x := fun x hx => hmem x (List.mem_cons_of_mem r hx)
    have hflat : flatJoin (r :: rest) = r ++ (NEWLINE :: flatJoin rest) := by
      simp [flatJoin]
    rw [hflat, buildIndexGo_nonNL G r hr, buildIndexGo, if_pos rfl]
    rw [anchorsFrom]
    split_ifs with hG
    · rw [ih hrest]
      simp only [List.reverse_cons, List.length_cons, Prod.mk.injEq]
      exact ⟨by omega, by simp [List.append_assoc]⟩
    · rw [ih hrest]
      simp only [List.length_cons, Prod.mk.injEq]
      exact ⟨by omega, trivial⟩

/-- Helper: `buildIndex` on a record-structured file: the row count is the
record count and the offsets are 0 followed by the pushed anchors. -/
theorem buildIndex_flatJoin (recs : List (List Nat)) (G : Nat)
    (hmem : ∀ r ∈ recs, NEWLINE ∉ r) :
    buildIndex (flatJoin recs) G =
      { totalRows := recs.length, offsets := 0 :: anchorsFrom G recs 0 0, granularity := G } := by
  rw [buildIndex]
  rw [buildIndexGo_flatJoin G recs hmem 0 0 0 [0]]
  simp

/-- Helper: `recOffset` at 0 is 0. -/
theorem recOffset_zero (recs : List (List Nat)) : recOffset recs 0 = 0 := rfl

/-- Helper: `recOffset` unfolds one record at a time. -/
theorem recOffset_cons (r : List Nat) (rest : List (List Nat)) (m : Nat) :
    recOffset (r :: rest) (m + 1) = (r.length + 1) + recOffset rest m := by
  simp [recOffset, List.take_succ_cons]

/-- Helper: position of the `j`-th pushed anchor, for a scan started with
`sl` rows since the last anchor. -/
theorem anchorsFrom_getD (G : Nat) (hG : 1 ≤ G) :
    ∀ (recs : List (List Nat)) (pos sl j : Nat), sl < G → (j + 1) * G ≤ sl + recs.length →
      (anchorsFrom G recs pos sl).getD j 0 = pos + recOffset recs ((j + 1) * G - sl) := by
  intro recs
  induction recs with
  | nil =>
    intro pos sl j hsl hle
    have hGm : G ≤ (j + 1) * G := Nat.le_mul_of_pos_left G (by omega)
    simp only [List.length_nil] at hle
    omega
  | cons r rest ih =>
    intro pos sl j hsl hle
    have hGm : G ≤ (j + 1) * G := Nat.le_mul_of_pos_left G (by omega)
    simp only [anchorsFrom]
    split_ifs with hpush
    · cases j with
      | zero =>
        rw [List.getD_cons_zero]
        have h1 : (0 + 1) * G - sl = 0 + 1 := by omega
        rw [h1, recOffset_cons, recOffset_zero]
        omega
      | succ j' =>
        rw [List.getD_cons_succ]
        have hmul : (j' + 1 + 1) * G = (j' + 1) * G + G := by ring
        rw [ih (pos + r.length + 1) 0 j' (by omega) (by simp only [List.length_cons] at hle; omega)]
        have harg : (j' + 1 + 1) * G - sl = ((j' + 1) * G - 0) + 1 := by omega
        rw [harg, recOffset_cons]
        omega
    · have hmul : G ≤ (j + 1) * G := hGm
      rw [ih (pos + r.length + 1) (sl + 1) j (by omega)
        (by simp only [List.length_cons] at hle; omega)]
      have harg : (j + 1) * G - sl = ((j + 1) * G - (sl + 1)) + 1 := by omega
      rw [harg, recOffset_cons]
      omega

/-- Helper: the `k`-th entry of the built offsets array is the byte offset
of record `k · G`. -/
theorem buildOffsets_getD (G : Nat) (hG : 1 ≤ G) (recs : List (List Nat)) (k : Nat)
    (hk : k * G ≤ recs.length) :
    (0 :: anchorsFrom G recs 0 0).getD k 0 = recOffset recs (k * G) := by
  cases k with
  | zero => simp [recOffset]
  | succ j =>
    rw [List.getD_cons_succ]
    rw [anchorsFrom_getD G hG recs 0 0 j (by omega) (by simpa using hk)]
    simp

/-- Helper: `flatJoin` distributes over append. -/
theorem flatJoin_append (a b : List (List Nat)) :
    flatJoin (a ++ b) = flatJoin a ++ flatJoin b := by
  simp [flatJoin]

/-- Helper: the length of a record-structured file is the sum of its
record lengths, terminators included. -/
theorem flatJoin_length (l : List (List Nat)) :
    (flatJoin l).length = (l.map (fun r => r.length + 1)).sum := by
  induction l with
  | nil => rfl
  | cons r rest ih =>
    have h : flatJoin (r :: rest) = (r ++ [NEWLINE]) ++ flatJoin rest := by simp [flatJoin]
    rw [h]
    simp only [List.length_append, List.map_cons, List.sum_cons, ih, List.length_cons,
      List.length_nil]

/-- Helper: the prefix of the first `m` records has length
`recOffset l m`. -/
theorem flatJoin_take_length (l : List (List Nat)) (m : Nat) :
    (flatJoin (l.take m)).length = recOffset l m := by
  rw [flatJoin_length]
  rfl

/-- Helper: dropping the first `m` records' bytes leaves the remaining
records' bytes. -/
theorem drop_flatJoin (l : List (List Nat)) (m : Nat) :
    (flatJoin l).drop (recOffset l m) = flatJoin (l.drop m) := by
  have h : flatJoin l = flatJoin (l.take m) ++ flatJoin (l.drop m) := by
    rw [← flatJoin_append, List.take_append_drop]
  rw [h, show recOffset l m = (flatJoin (l.take m)).length from (flatJoin_take_length l m).symm,
    List.drop_left]

/-- Helper: a record-prefix offset never exceeds the file length. -/
theorem recOffset_le_length (l : List (List Nat)) (m : Nat) :
    recOffset l m ≤ (flatJoin l).length := by
  rw [flatJoin_length]
  unfold recOffset
  rw [List.map_take]
  exact List.Sublist.sum_le_sum (List.take_sublist m _) (by simp)

/-- Helper: when every record (terminator included) is at most 30 bytes,
the first `m` records span at most `30 · m` bytes. -/
theorem recOffset_le_30mul (l : List (List Nat)) (h : ∀ r ∈ l, r.length + 1 ≤ 30) :
    ∀ m, recOffset l m ≤ 30 * m := by
  induction l with
  | nil => intro m; simp [recOffset]
  | cons r rest ih =>
    intro m
    cases m with
    | zero => simp [recOffset_zero]
    | succ m' =>
      rw [recOffset_cons]
      have h1 := h r (List.mem_cons_self r rest)
      have h2 := ih (fun x hx => h x (List.mem_cons_of_mem r hx)) m'
      omega

/-- Helper: the skip loop consumes one newline-free record and its
terminator per skipped row. -/
theorem skipLines_nonNL (r : List Nat) (hr : NEWLINE ∉ r) :
    ∀ (z : List Nat) (n : Nat), skipLines (r ++ NEWLINE :: z) (n + 1) = skipLines z n := by
  induction r with
  | nil => intro z n; rw [List.nil_append, skipLines, if_pos rfl]
  | cons b rest ih =>
    intro z n
    have hb : b ≠ NEWLINE := fun hEq => hr (hEq ▸ List.mem_cons_self b rest)
    have hrest : NEWLINE ∉ rest := fun hmem => hr (List.mem_cons_of_mem b hmem)
    rw [List.cons_append, skipLines, if_neg hb, ih hrest]

/-- Helper: skipping as many rows as there are leading records consumes
exactly their bytes. -/
theorem skipLines_flatJoin (recs : List (List Nat)) (hmem : ∀ r ∈ recs, NEWLINE ∉ r)
    (tail : List Nat) : skipLines (flatJoin recs ++ tail) recs.length = tail := by
  induction recs with
  | nil => simp [flatJoin, skipLines]
  | cons r rest ih =>
    have hdata : flatJoin (r :: rest) ++ tail = r ++ (NEWLINE :: (flatJoin rest ++ tail)) := by
      simp [flatJoin, List.append_assoc]
    rw [hdata, List.length_cons,
      skipLines_nonNL r (hmem r (List.mem_cons_self r rest)) _ rest.length,
      ih (fun x hx => hmem x (List.mem_cons_of_mem r hx))]

/-- Helper: a nonempty record with no leading newline passes the parse
loop's empty-line-skipping step untouched. -/
theorem dropWhile_append_of_ne (r : List Nat) (hne : r ≠ []) (hrNL : NEWLINE ∉ r)
    (z : List Nat) : (r ++ z).dropWhile (fun b => b = NEWLINE) = r ++ z := by
  cases r with
  | nil => exact absurd rfl hne
  | cons a r2 =>
    have ha : ¬(a = NEWLINE) := fun hEq => hrNL (by simp [hEq])
    simp [List.dropWhile_cons, ha]

/-- Helper: the line scan stops exactly at the record's terminator. -/
theorem takeWhile_append_newline (r : List Nat) (hrNL : NEWLINE ∉ r) (z : List Nat) :
    (r ++ NEWLINE :: z).takeWhile (fun b => b ≠ NEWLINE) = r := by
  induction r with
  | nil => rw [List.nil_append, List.takeWhile_cons, if_neg (by simp)]
  | cons a r2 ih =>
    have ha : a ≠ NEWLINE := fun hEq => hrNL (by simp [hEq])
    have hr2 : NEWLINE ∉ r2 := fun hmem => hrNL (List.mem_cons_of_mem a hmem)
    rw [List.cons_append, List.takeWhile_cons, if_pos (by simp [ha]), ih hr2]

/-- Helper: advancing past the record and its terminator leaves the
rest. -/
theorem drop_append_newline (r z : List Nat) :
    (r ++ NEWLINE :: z).drop (r.length + 1) = z := by
  have h : r ++ NEWLINE :: z = (r ++ [NEWLINE]) ++ z := by simp
  have hlen : r.length + 1 = (r ++ [NEWLINE]).length := by simp
  rw [h, hlen, List.drop_left]

/-- Helper: on data beginning with `m` nonempty newline-terminated
records, the parse loop emits exactly `m` rows. -/
theorem parseEmit_flatJoin_length :
    ∀ (m : Nat) (B : List (List Nat)) (tail : List Nat) (sc cc : Int),
      m ≤ B.length → (∀ r ∈ B, NEWLINE ∉ r ∧ r ≠ []) →
      (parseEmit m (flatJoin B ++ tail) sc cc).length = m := by
  intro m
  induction m with
  | zero => intro B tail sc cc _ _; rfl
  | succ m ih =>
    intro B tail sc cc hlen hmem
    cases B with
    | nil => simp at hlen
    | cons r rest =>
      obtain ⟨hrNL, hrne⟩ := hmem r (List.mem_cons_self r rest)
      have hdata : flatJoin (r :: rest) ++ tail = r ++ (NEWLINE :: (flatJoin rest ++ tail)) := by
        simp [flatJoin, List.append_assoc]
      rw [hdata]
      simp only [parseEmit]
      rw [dropWhile_append_of_ne r hrne hrNL (NEWLINE :: (flatJoin rest ++ tail))]
      rw [if_neg (by simp)]
      rw [takeWhile_append_newline r hrNL, drop_append_newline r]
      simp only [List.length_cons]
      rw [ih rest tail sc cc (by simp only [List.length_cons] at hlen; omega)
        (fun x hx => hmem x (List.mem_cons_of_mem r hx))]

/-- Helper: on a chunk that contains the first `skip + rc` records of a
record-structured remainder in full, `parseRows` yields exactly `rc`
rows. -/
theorem parseRows_take_length (recs2 : List (List Nat)) (skip rc L : Nat) (sc cc : Int)
    (hmem : ∀ r ∈ recs2, NEWLINE ∉ r ∧ r ≠ [])
    (hcount : skip + rc ≤ recs2.length)
    (hL : recOffset recs2 (skip + rc) ≤ L) :
    (parseRows ((flatJoin recs2).take L) skip rc sc cc).length = rc := by
  have hsplit : flatJoin recs2 =
      flatJoin (recs2.take (skip + rc)) ++ flatJoin (recs2.drop (skip + rc)) := by
    rw [← flatJoin_append, List.take_append_drop]
  have hlen1 : (flatJoin (recs2.take (skip + rc))).length = recOffset recs2 (skip + rc) :=
    flatJoin_take_length recs2 (skip + rc)
  have hchunk : (flatJoin recs2).take L =
      flatJoin (recs2.take (skip + rc)) ++
        (flatJoin (recs2.drop (skip + rc))).take (L - (flatJoin (recs2.take (skip + rc))).length) := by
    rw [hsplit, List.take_append_eq_append_take,
      List.take_of_length_le (le_trans (le_of_eq hlen1) hL)]
  rw [hchunk]
  generalize (flatJoin (recs2.drop (skip + rc))).take
    (L - (flatJoin (recs2.take (skip + rc))).length) = tl
  rw [List.take_add recs2 skip rc, flatJoin_append, List.append_assoc, parseRows]
  have hskiplen : (recs2.take skip).length = skip := by
    rw [List.length_take]; omega
  have hskip := skipLines_flatJoin (recs2.take skip)
    (fun r hr => (hmem r (List.mem_of_mem_take hr)).1)
    (flatJoin ((recs2.drop skip).take rc) ++ tl)
  rw [hskiplen] at hskip
  rw [hskip]
  have hBlen : ((recs2.drop skip).take rc).length = rc := by
    rw [List.length_take, List.length_drop]; omega
  exact parseEmit_flatJoin_length rc ((recs2.drop skip).take rc) _ sc cc (by omega)
    (fun r hr => hmem r (List.mem_of_mem_drop (List.mem_of_mem_take hr)))

/-- Helper: the main branch of `getSlice`, against an index whose
granularity is `G` and whose offsets anchor every `G`-th record correctly,
returns exactly the requested number of rows when the request fits in the
file and every record is nonempty and at most 30 bytes with its
terminator: the initial read estimate of 30 bytes per row already covers
the needed records, so no retry is needed. -/
theorem getSliceCore_exact (recs : List (List Nat)) (idx : FileIndex) (G : Nat)
    (hG : 1 ≤ G) (hgran : idx.granularity = G)
    (hanchor : ∀ k, k * G ≤ recs.length → idx.offsets.getD k 0 = recOffset recs (k * G))
    (hrecs : ∀ r ∈ recs, NEWLINE ∉ r ∧ r ≠ [] ∧ r.length + 1 ≤ 30)
    (sr rc : Nat) (hrc : 1 ≤ rc) (hsum : sr + rc ≤ recs.length) (sc cc : Int) :
    (getSliceCore (flatJoin recs) idx sr rc sc cc).rowCount = (rc : Int) := by
  have hkG : (sr / G) * G ≤ recs.length := le_trans (Nat.div_mul_le_self sr G) (by omega)
  have ha : idx.offsets.getD (sr / G) 0 = recOffset recs (sr / G * G) := hanchor _ hkG
  simp only [getSliceCore, hgran, ha, drop_flatJoin]
  have hneed1 : recOffset (recs.drop (sr / G * G)) ((sr - sr / G * G) + rc) ≤
      (sr - sr / G * G + rc) * 30 := by
    have := recOffset_le_30mul (recs.drop (sr / G * G))
      (fun r hr => (hrecs r (List.mem_of_mem_drop hr)).2.2) ((sr - sr / G * G) + rc)
    omega
  have hneed2 : recOffset (recs.drop (sr / G * G)) ((sr - sr / G * G) + rc) ≤
      (flatJoin (recs.drop (sr / G * G))).length :=
    recOffset_le_length (recs.drop (sr / G * G)) ((sr - sr / G * G) + rc)
  have hlen2 : (flatJoin recs).length - recOffset recs (sr / G * G) =
      (flatJoin (recs.drop (sr / G * G))).length := by
    rw [← drop_flatJoin, List.length_drop]
  have hcount2 : (sr - sr / G * G) + rc ≤ (recs.drop (sr / G * G)).length := by
    rw [List.length_drop]
    have := Nat.div_mul_le_self sr G
    omega
  have hrowsInit : (parseRows
      ((flatJoin (recs.drop (sr / G * G))).take
        (min (max ((sr - sr / G * G + rc) * 30) READ_BUFFER_SIZE)
          ((flatJoin recs).length - recOffset recs (sr / G * G))))
      (sr - sr / G * G) rc sc cc).length = rc := by
    apply parseRows_take_length (recs.drop (sr / G * G)) (sr - sr / G * G) rc _ sc cc
      (fun r hr =>
        ⟨(hrecs r (List.mem_of_mem_drop hr)).1, (hrecs r (List.mem_of_mem_drop hr)).2.1⟩)
      hcount2
    rw [hlen2]
    exact le_min (le_trans hneed1 (le_max_left _ _)) hneed2
  rw [if_neg (by rw [hrowsInit]; exact fun hc => absurd hc.1 (lt_irrefl rc))]
  simp only [mkSliceResponse]
  rw [hrowsInit]

/-- C2 (amended): for every data file all of whose records are nonempty
and at most 30 bytes including the line terminator, the index built over
it with any granularity `G ≥ 1`, and every request with `startRow ≥ 0`,
`0 ≤ rowCount ≤ 1000` and `startRow + rowCount ≤ totalRows`, the
`rowCount` field of the `getSlice` response equals the requested
`rowCount` (the initial read already suffices; no retry is needed). -/
theorem getSlice_rowCount_exact (recs : List (List Nat)) (G : Nat) (hG : 1 ≤ G)
    (hrecs : ∀ r ∈ recs, NEWLINE ∉ r ∧ r ≠ [] ∧ r.length + 1 ≤ 30)
    (startRow0 rowCount0 startCol0 colCount0 : Int)
    (hs0 : 0 ≤ startRow0) (hr0 : 0 ≤ rowCount0)
    (hsum : startRow0 + rowCount0 ≤ (recs.length : Int)) (hcap : rowCount0 ≤ 1000) :
    (getSlice (flatJoin recs) (buildIndex (flatJoin recs) G)
      startRow0 rowCount0 startCol0 colCount0).rowCount = rowCount0 := by
  have hNL : ∀ r ∈ recs, NEWLINE ∉ r := fun r hr => (hrecs r hr).1
  rw [buildIndex_flatJoin recs G hNL, getSlice]
  dsimp only
  by_cases hzero : rowCount0 = 0
  · rw [if_pos (by omega)]
    dsimp only
    omega
  · have h1 : (1 : Int) ≤ rowCount0 := by omega
    have hR1 : (1 : Int) ≤ (recs.length : Int) := by omega
    have hclampS : max 0 (min startRow0 ((recs.length : Int) - 1)) = startRow0 := by omega
    rw [hclampS]
    have hclampR : min rowCount0 ((recs.length : Int) - startRow0) = rowCount0 := by omega
    rw [hclampR, if_neg (by omega)]
    rw [getSliceCore_exact recs
      { totalRows := recs.length, offsets := 0 :: anchorsFrom G recs 0 0, granularity := G } G
      hG rfl (fun k hk => buildOffsets_getD G hG recs k hk) hrecs
      startRow0.toNat rowCount0.toNat (by omega) (by omega) _ _]
    omega

/-- C2 witness: the amended statement on the seed file with granularity 2
and the request `(1, 3, 0, 2)`. -/
theorem getSlice_rowCount_exact_witness :
    ((1 : Nat) ≤ 2 ∧ (∀ r ∈ seedRecords, NEWLINE ∉ r ∧ r ≠ [] ∧ r.length + 1 ≤ 30) ∧
      (0 : Int) ≤ 1 ∧ (0 : Int) ≤ 3 ∧ (1 : Int) + 3 ≤ (seedRecords.length : Int) ∧
      (3 : Int) ≤ 1000) ∧
    (getSlice (flatJoin seedRecords) (buildIndex (flatJoin seedRecords) 2) 1 3 0 2).rowCount = 3 :=
  ⟨⟨by decide, by decide, by decide, by decide, by decide, by decide⟩,
    getSlice_rowCount_exact seedRecords 2 (by decide) (by decide) 1 3 0 2
      (by decide) (by decide) (by decide) (by decide)⟩
